import Mathlib

/-
Verification development for the mtg_deal_finder repository.

Shallow embedding of the core modules:
  * `quality.py`    — `CardQuality`, `CardQuality.from_string`, `meets_minimum_quality`
  * `strategies.py` — the six selection strategies and `get_strategy`
  * `main.py`       — the strategy-resolution part of `select_best_offers`
  * `utils/normalization.py` — `normalize_condition`
  * `utils/caching.py` — `get_cache_path`, `save_to_cache`, `load_from_cache`, `clear_cache`

Prices are modelled as rationals (only their ordering matters to the code);
timestamps are rationals measured in hours; the on-disk cache directory is
modelled as an association list from file name to cache entry.
-/

set_option autoImplicit false

/-- The seven card quality levels of `quality.py` (an `IntEnum` in the source,
with `DAMAGED = 1` up to `MINT = 7`). -/
inductive CardQuality where
  | DAMAGED
  | HEAVILY_PLAYED
  | PLAYED
  | MODERATELY_PLAYED
  | LIGHTLY_PLAYED
  | NEAR_MINT
  | MINT
deriving DecidableEq

/-- The integer value of the `IntEnum` member. -/
def CardQuality.val : CardQuality → Nat
  | .DAMAGED => 1
  | .HEAVILY_PLAYED => 2
  | .PLAYED => 3
  | .MODERATELY_PLAYED => 4
  | .LIGHTLY_PLAYED => 5
  | .NEAR_MINT => 6
  | .MINT => 7

/-- `IntEnum` members compare by their integer value. -/
instance : LE CardQuality := ⟨fun a b => a.val ≤ b.val⟩

instance : DecidableRel (α := CardQuality) (· ≤ ·) :=
  fun a b => inferInstanceAs (Decidable (a.val ≤ b.val))

/-- Python `str.lower` (character-wise; the repository only handles ASCII
condition text). -/
def lowerStr (s : String) : String := String.mk (s.data.map Char.toLower)

/-- Python `str.upper` (character-wise). -/
def upperStr (s : String) : String := String.mk (s.data.map Char.toUpper)

/-- Python `str.strip`: drop leading and trailing whitespace. -/
def stripStr (s : String) : String :=
  String.mk (((s.data.dropWhile Char.isWhitespace).reverse.dropWhile Char.isWhitespace).reverse)

/-- The `condition_map` dictionary of `CardQuality.from_string`. -/
def CONDITION_MAP : List (String × CardQuality) :=
  [("mint", .MINT), ("m", .MINT),
   ("near mint", .NEAR_MINT), ("nm", .NEAR_MINT),
   ("lightly played", .LIGHTLY_PLAYED), ("lp", .LIGHTLY_PLAYED),
   ("moderately played", .MODERATELY_PLAYED), ("mp", .MODERATELY_PLAYED),
   ("played", .PLAYED), ("pl", .PLAYED), ("p", .PLAYED),
   ("heavily played", .HEAVILY_PLAYED), ("hp", .HEAVILY_PLAYED),
   ("damaged", .DAMAGED), ("dmg", .DAMAGED)]

/-- `CardQuality.from_string`: empty input returns `None`; otherwise the
lowercased, stripped text is looked up in `condition_map`. -/
def CardQuality.fromString (condition : String) : Option CardQuality :=
  if condition = "" then none
  else
    let c := stripStr (lowerStr condition)
    (CONDITION_MAP.find? (fun kv => kv.1 == c)).map (fun kv => kv.2)

/-- `meets_minimum_quality` from `quality.py`: `True` when no floor,
`False` for unparsable text, else compare ranks. -/
def meets_minimum_quality (condition : String) (min_quality : Option CardQuality) : Bool :=
  match min_quality with
  | none => true
  | some mq =>
    match CardQuality.fromString condition with
    | none => false
    | some cq => decide (mq ≤ cq)

/-- The `condition_map` dictionary of `normalize_condition` in
`utils/normalization.py`. -/
def CONDITION_NORMALIZATION_MAP : List (String × String) :=
  [("NEAR MINT", "NM"), ("NEARMINT", "NM"), ("NM", "NM"), ("MINT", "NM"),
   ("LIGHTLY PLAYED", "LP"), ("LIGHTLYPLAYED", "LP"), ("LP", "LP"), ("LIGHT PLAY", "LP"),
   ("MODERATELY PLAYED", "MP"), ("MODERATELYPLAYED", "MP"), ("MP", "MP"), ("MODERATE PLAY", "MP"),
   ("HEAVILY PLAYED", "HP"), ("HEAVILYPLAYED", "HP"), ("HP", "HP"), ("HEAVY PLAY", "HP"),
   ("DAMAGED", "DMG"), ("DMG", "DMG"), ("POOR", "DMG")]

/-- `normalize_condition` from `utils/normalization.py`: falsy input defaults
to `"NM"`; otherwise the stripped uppercased text is mapped through the table,
unrecognized text passing through unchanged. -/
def normalize_condition (condition : String) : String :=
  if condition = "" then "NM"
  else
    let cu := upperStr (stripStr condition)
    match CONDITION_NORMALIZATION_MAP.find? (fun kv => kv.1 == cu) with
    | some kv => kv.2
    | none => cu

/-- The `Offer` dataclass of `cards.py`. Prices (`float` in the source) are
modelled as rationals: the code only compares them. -/
structure Offer where
  store : String
  card : String
  set : String
  condition : String
  price : ℚ
  url : String
  foil : Bool
  availability : Bool
  query : String
deriving DecidableEq

/-- Python `needle in hay` on strings: contiguous-substring containment. -/
def strContainsSub (hay needle : String) : Bool :=
  hay.data.tails.any (fun t => needle.data.isPrefixOf t)

/-- `SelectionStrategy._filter_by_quality`: identity when no floor, otherwise
keep the offers whose condition meets the floor. -/
def filterByQuality (mq : Option CardQuality) (offers : List Offer) : List Offer :=
  match mq with
  | none => offers
  | some _ => offers.filter (fun o => meets_minimum_quality o.condition mq)

/-- Python `min(l, key=price)` on a nonempty list: returns the first offer
attaining the minimal price (`min` only replaces on a strictly smaller key). -/
def minByPrice : List Offer → Option Offer
  | [] => none
  | x :: xs => some (xs.foldl (fun a b => if b.price < a.price then b else a) x)

/-- Python `max(l, key=price)` on a nonempty list: returns the first offer
attaining the maximal price. -/
def maxByPrice : List Offer → Option Offer
  | [] => none
  | x :: xs => some (xs.foldl (fun a b => if a.price < b.price then b else a) x)

/-- `BestConditionStrategy.NEAR_MINT_CONDITIONS`. -/
def NEAR_MINT_CONDITIONS : List String := ["Near Mint", "NM", "Mint", "M"]

/-- The closed set of selection strategies registered in
`AVAILABLE_STRATEGIES` of `strategies.py`. -/
inductive StrategyKind where
  | cheapest
  | cheapestFoil
  | cheapestNonFoil
  | blingiest
  | bestCondition
  | foilFirstCheapest
deriving DecidableEq

/-- The `select` method of each strategy class in `strategies.py`, with the
strategy's `min_quality` passed explicitly. -/
def StrategyKind.select : StrategyKind → Option CardQuality → List Offer → Option Offer
  | .cheapest, mq, offers =>
    if offers.isEmpty then none
    else
      let qf := filterByQuality mq offers
      let avail := qf.filter (fun o => o.availability)
      if avail.isEmpty then none else minByPrice avail
  | .cheapestFoil, mq, offers =>
    if offers.isEmpty then none
    else
      let qf := filterByQuality mq offers
      let foils := qf.filter (fun o => o.foil && o.availability)
      if foils.isEmpty then none else minByPrice foils
  | .cheapestNonFoil, mq, offers =>
    if offers.isEmpty then none
    else
      let qf := filterByQuality mq offers
      let nf := qf.filter (fun o => !o.foil && o.availability)
      if nf.isEmpty then none else minByPrice nf
  | .blingiest, mq, offers =>
    if offers.isEmpty then none
    else
      let qf := filterByQuality mq offers
      let foils := qf.filter (fun o => o.foil && o.availability)
      if foils.isEmpty then none else maxByPrice foils
  | .bestCondition, mq, offers =>
    if offers.isEmpty then none
    else
      let qf := filterByQuality mq offers
      let nm := qf.filter (fun o =>
        o.availability &&
          NEAR_MINT_CONDITIONS.any (fun c => strContainsSub (lowerStr o.condition) (lowerStr c)))
      if nm.isEmpty then none else minByPrice nm
  | .foilFirstCheapest, mq, offers =>
    if offers.isEmpty then none
    else
      let qf := filterByQuality mq offers
      let avail := qf.filter (fun o => o.availability)
      if avail.isEmpty then none
      else
        let foils := avail.filter (fun o => o.foil)
        if !foils.isEmpty then minByPrice foils
        else
          let nf := avail.filter (fun o => !o.foil)
          if !nf.isEmpty then minByPrice nf else none

/-- The human-readable names returned by each strategy's `get_name`. -/
def StrategyKind.getName : StrategyKind → String
  | .cheapest => "Cheapest"
  | .cheapestFoil => "Cheapest Foil"
  | .cheapestNonFoil => "Cheapest Non-Foil"
  | .blingiest => "Blingiest (Most Expensive Foil)"
  | .bestCondition => "Best Condition (Near Mint)"
  | .foilFirstCheapest => "Foil First, Cheapest"

/-- The `AVAILABLE_STRATEGIES` registry of `strategies.py`. -/
def AVAILABLE_STRATEGIES : List (String × StrategyKind) :=
  [("cheapest", .cheapest),
   ("cheapest-foil", .cheapestFoil),
   ("cheapest-nonfoil", .cheapestNonFoil),
   ("blingiest", .blingiest),
   ("best-condition", .bestCondition),
   ("foil-first-cheapest", .foilFirstCheapest)]

/-- `get_strategy` from `strategies.py`: dictionary lookup on the lowercased
name; an unknown name raises `ValueError`, modelled as `Except.error`. -/
def getStrategy (name : String) (mq : Option CardQuality) :
    Except String (StrategyKind × Option CardQuality) :=
  match AVAILABLE_STRATEGIES.find? (fun kv => kv.1 == lowerStr name) with
  | some kv => Except.ok (kv.2, mq)
  | none =>
      Except.error
        ("Unknown strategy: " ++ name ++
         ". Available strategies: cheapest, cheapest-foil, cheapest-nonfoil, blingiest, best-condition, foil-first-cheapest")

/-- The strategy-resolution prologue of `select_best_offers` in `main.py`:
`get_strategy` is tried, a `ValueError` is logged and the `cheapest` strategy
is fetched instead. The second component collects the logged messages. -/
def selectBestOffersStrategy (name : String) (mq : Option CardQuality) :
    (StrategyKind × Option CardQuality) × List String :=
  match getStrategy name mq with
  | Except.ok st => (st, ["Using selection strategy: " ++ st.1.getName])
  | Except.error e =>
    match getStrategy "cheapest" mq with
    | Except.ok st => (st, [e, "Falling back to cheapest strategy"])
    | Except.error e2 => ((.cheapest, mq), [e, e2, "Falling back to cheapest strategy"])

/-- Boolean string-prefix test (Python `str.startswith`). -/
def hasPrefixB (s p : String) : Bool := p.data.isPrefixOf s.data

/-- Boolean string-suffix test (the `*.json` glob of `clear_cache`). -/
def hasSuffixB (s p : String) : Bool := p.data.isSuffixOf s.data

/-- The file-name sanitization of `get_cache_path`: the two single-character
`str.replace` calls (space and slash to underscore) act character-wise, then
every character that is not alphanumeric, underscore or hyphen is dropped. -/
def sanitizeChars (l : List Char) : List Char :=
  (l.map (fun c => if c = ' ' then '_' else if c = '/' then '_' else c)).filter
    (fun c => c.isAlphanum || c = '_' || c = '-')

/-- `get_cache_path` from `utils/caching.py`: the sanitized
`f"{store_name}_{card_name}"` with a `.json` extension (the constant cache
directory is omitted — all keys live in the one directory). -/
def getCachePath (store_name card_name : String) : String :=
  String.mk (sanitizeChars (store_name.data ++ '_' :: card_name.data) ++ ".json".data)

/-- One cache file of `utils/caching.py`: creation timestamp (hours),
`ttl_hours`, and the cached payload. -/
structure CacheEntry (α : Type) where
  timestamp : ℚ
  ttl_hours : ℤ
  data : α
deriving DecidableEq

/-- The cache directory: an association list from file name to entry, one
entry per file name. -/
abbrev CacheState (α : Type) : Type := List (String × CacheEntry α)

/-- `save_to_cache`: writes the entry file for `(store_name, card_name)`,
replacing any previous file of the same name. -/
def saveToCache {α : Type} (store_name card_name : String) (d : α) (ttl_hours : ℤ)
    (now : ℚ) (st : CacheState α) : CacheState α :=
  let p := getCachePath store_name card_name
  (p, ⟨now, ttl_hours, d⟩) :: st.filter (fun kv => !(kv.1 == p))

/-- `load_from_cache`: a miss returns `none`; an entry with
`now - timestamp > ttl` is deleted and `none` is returned; otherwise the
payload is returned and the state unchanged. -/
def loadFromCache {α : Type} (store_name card_name : String) (now : ℚ)
    (st : CacheState α) : Option α × CacheState α :=
  let p := getCachePath store_name card_name
  match st.find? (fun kv => kv.1 == p) with
  | none => (none, st)
  | some kv =>
    if (kv.2.ttl_hours : ℚ) < now - kv.2.timestamp then
      (none, st.filter (fun kv => !(kv.1 == p)))
    else
      (some kv.2.data, st)

/-- `clear_cache`: deletes every `*.json` file (when `store_name` is given,
only those whose file name starts with `store_name + "_"`) and returns the
number deleted. -/
def clearCache {α : Type} (store_name : Option String) (st : CacheState α) :
    ℕ × CacheState α :=
  let isMatch : String × CacheEntry α → Bool := fun kv =>
    hasSuffixB kv.1 ".json" &&
      (match store_name with
       | none => true
       | some s => hasPrefixB kv.1 (s ++ "_"))
  ((st.filter isMatch).length, st.filter (fun kv => !(isMatch kv)))

/-- Two in-stock Near-Mint offers that share the identical price but come from
different stores. -/
def tieOfferA : Offer :=
  { store := "StoreA", card := "Bolt", set := "S", condition := "NM", price := 1,
    url := "uA", foil := false, availability := true, query := "" }

def tieOfferB : Offer :=
  { store := "StoreB", card := "Bolt", set := "S", condition := "NM", price := 1,
    url := "uB", foil := false, availability := true, query := "" }

/-- Two in-stock offers with distinct prices. -/
def distinctOfferA : Offer :=
  { store := "StoreA", card := "Bolt", set := "S", condition := "NM", price := 1,
    url := "uA", foil := false, availability := true, query := "" }

def distinctOfferB : Offer :=
  { store := "StoreB", card := "Bolt", set := "S", condition := "NM", price := 2,
    url := "uB", foil := false, availability := true, query := "" }

/-- An in-stock offer whose condition text is `"Damaged"`. -/
def damagedOffer : Offer :=
  { store := "StoreX", card := "Bolt", set := "S", condition := "Damaged", price := 5,
    url := "u", foil := false, availability := true, query := "" }

/-- An offer that is not in stock. -/
def outOfStockOffer : Offer :=
  { store := "StoreX", card := "Bolt", set := "S", condition := "NM", price := 3,
    url := "u", foil := true, availability := false, query := "" }

/-! ### Lemmas about the price-minimising and price-maximising folds -/

theorem minFold_spec (xs : List Offer) : ∀ x : Offer,
    (xs.foldl (fun a b => if b.price < a.price then b else a) x ∈ x :: xs) ∧
    (∀ y ∈ x :: xs,
      (xs.foldl (fun a b => if b.price < a.price then b else a) x).price ≤ y.price) := by
  induction xs with
  | nil =>
    intro x
    constructor
    · exact List.mem_singleton_self x
    · intro y hy
      rw [List.mem_singleton] at hy
      subst hy
      exact le_refl _
  | cons y ys ih =>
    intro x
    obtain ⟨hmem, hle⟩ := ih (if y.price < x.price then y else x)
    have hzx : (if y.price < x.price then y else x).price ≤ x.price := by
      split_ifs with hc
      · exact le_of_lt hc
      · exact le_refl _
    have hzy : (if y.price < x.price then y else x).price ≤ y.price := by
      split_ifs with hc
      · exact le_refl _
      · exact le_of_not_lt hc
    have hres := hle _ (List.mem_cons_self _ _)
    constructor
    · simp only [List.foldl_cons]
      rcases List.mem_cons.1 hmem with hc | hc
      · rw [hc]
        split_ifs
        · exact List.mem_cons_of_mem _ (List.mem_cons_self _ _)
        · exact List.mem_cons_self _ _
      · exact List.mem_cons_of_mem _ (List.mem_cons_of_mem _ hc)
    · intro w hw
      simp only [List.foldl_cons]
      rcases List.mem_cons.1 hw with hc | hc
      · subst hc
        exact le_trans hres hzx
      · rcases List.mem_cons.1 hc with hc2 | hc2
        · subst hc2
          exact le_trans hres hzy
        · exact hle w (List.mem_cons_of_mem _ hc2)

theorem maxFold_spec (xs : List Offer) : ∀ x : Offer,
    (xs.foldl (fun a b => if a.price < b.price then b else a) x ∈ x :: xs) ∧
    (∀ y ∈ x :: xs,
      y.price ≤ (xs.foldl (fun a b => if a.price < b.price then b else a) x).price) := by
  induction xs with
  | nil =>
    intro x
    constructor
    · exact List.mem_singleton_self x
    · intro y hy
      rw [List.mem_singleton] at hy
      subst hy
      exact le_refl _
  | cons y ys ih =>
    intro x
    obtain ⟨hmem, hle⟩ := ih (if x.price < y.price then y else x)
    have hzx : x.price ≤ (if x.price < y.price then y else x).price := by
      split_ifs with hc
      · exact le_of_lt hc
      · exact le_refl _
    have hzy : y.price ≤ (if x.price < y.price then y else x).price := by
      split_ifs with hc
      · exact le_refl _
      · exact le_of_not_lt hc
    have hres := hle _ (List.mem_cons_self _ _)
    constructor
    · simp only [List.foldl_cons]
      rcases List.mem_cons.1 hmem with hc | hc
      · rw [hc]
        split_ifs
        · exact List.mem_cons_of_mem _ (List.mem_cons_self _ _)
        · exact List.mem_cons_self _ _
      · exact List.mem_cons_of_mem _ (List.mem_cons_of_mem _ hc)
    · intro w hw
      simp only [List.foldl_cons]
      rcases List.mem_cons.1 hw with hc | hc
      · subst hc
        exact le_trans hzx hres
      · rcases List.mem_cons.1 hc with hc2 | hc2
        · subst hc2
          exact le_trans hzy hres
        · exact hle w (List.mem_cons_of_mem _ hc2)

theorem minByPrice_eq_none {l : List Offer} : minByPrice l = none ↔ l = [] := by
  cases l <;> simp [minByPrice]

theorem maxByPrice_eq_none {l : List Offer} : maxByPrice l = none ↔ l = [] := by
  cases l <;> simp [maxByPrice]

theorem minByPrice_mem {l : List Offer} {o : Offer} (h : minByPrice l = some o) : o ∈ l := by
  cases l with
  | nil => simp [minByPrice] at h
  | cons x xs =>
    simp only [minByPrice, Option.some.injEq] at h
    exact h ▸ (minFold_spec xs x).1

theorem maxByPrice_mem {l : List Offer} {o : Offer} (h : maxByPrice l = some o) : o ∈ l := by
  cases l with
  | nil => simp [maxByPrice] at h
  | cons x xs =>
    simp only [maxByPrice, Option.some.injEq] at h
    exact h ▸ (maxFold_spec xs x).1

theorem minByPrice_le {l : List Offer} {o : Offer} (h : minByPrice l = some o) :
    ∀ y ∈ l, o.price ≤ y.price := by
  cases l with
  | nil => simp [minByPrice] at h
  | cons x xs =>
    simp only [minByPrice, Option.some.injEq] at h
    exact h ▸ (minFold_spec xs x).2

theorem maxByPrice_ge {l : List Offer} {o : Offer} (h : maxByPrice l = some o) :
    ∀ y ∈ l, y.price ≤ o.price := by
  cases l with
  | nil => simp [maxByPrice] at h
  | cons x xs =>
    simp only [maxByPrice, Option.some.injEq] at h
    exact h ▸ (maxFold_spec xs x).2

/-! ### Permutation lemmas -/

theorem perm_isEmpty {l l' : List Offer} (h : l.Perm l') : l.isEmpty = l'.isEmpty := by
  have hlen := h.length_eq
  cases l <;> cases l' <;> simp_all

theorem minByPrice_perm {l l' : List Offer} (h : l.Perm l')
    (hinj : ∀ a ∈ l, ∀ b ∈ l, a.price = b.price → a = b) :
    minByPrice l = minByPrice l' := by
  cases hq : minByPrice l with
  | none =>
    have hl : l = [] := minByPrice_eq_none.1 hq
    subst hl
    have hl' : l' = [] := (h.symm).eq_nil
    subst hl'
    rfl
  | some o =>
    cases hq' : minByPrice l' with
    | none =>
      have hl' : l' = [] := minByPrice_eq_none.1 hq'
      subst hl'
      have hl : l = [] := h.eq_nil
      subst hl
      simp [minByPrice] at hq
    | some o' =>
      have ho : o ∈ l := minByPrice_mem hq
      have ho' : o' ∈ l' := minByPrice_mem hq'
      have ho'l : o' ∈ l := h.mem_iff.2 ho'
      have hol' : o ∈ l' := h.mem_iff.1 ho
      have h1 : o.price ≤ o'.price := minByPrice_le hq o' ho'l
      have h2 : o'.price ≤ o.price := minByPrice_le hq' o hol'
      rw [hinj o ho o' ho'l (le_antisymm h1 h2)]

theorem maxByPrice_perm {l l' : List Offer} (h : l.Perm l')
    (hinj : ∀ a ∈ l, ∀ b ∈ l, a.price = b.price → a = b) :
    maxByPrice l = maxByPrice l' := by
  cases hq : maxByPrice l with
  | none =>
    have hl : l = [] := maxByPrice_eq_none.1 hq
    subst hl
    have hl' : l' = [] := (h.symm).eq_nil
    subst hl'
    rfl
  | some o =>
    cases hq' : maxByPrice l' with
    | none =>
      have hl' : l' = [] := maxByPrice_eq_none.1 hq'
      subst hl'
      have hl : l = [] := h.eq_nil
      subst hl
      simp [maxByPrice] at hq
    | some o' =>
      have ho : o ∈ l := maxByPrice_mem hq
      have ho' : o' ∈ l' := maxByPrice_mem hq'
      have ho'l : o' ∈ l := h.mem_iff.2 ho'
      have hol' : o ∈ l' := h.mem_iff.1 ho
      have h1 : o'.price ≤ o.price := maxByPrice_ge hq o' ho'l
      have h2 : o.price ≤ o'.price := maxByPrice_ge hq' o hol'
      rw [hinj o ho o' ho'l (le_antisymm h2 h1)]

theorem mem_filterByQuality {mq : Option CardQuality} {l : List Offer} {o : Offer}
    (h : o ∈ filterByQuality mq l) : o ∈ l := by
  cases mq with
  | none => exact h
  | some q => exact (List.mem_filter.1 h).1

theorem perm_filterByQuality {mq : Option CardQuality} {l l' : List Offer} (h : l.Perm l') :
    (filterByQuality mq l).Perm (filterByQuality mq l') := by
  cases mq with
  | none => exact h
  | some q => exact h.filter _

theorem inj_restrict {l m : List Offer}
    (hsub : ∀ x ∈ m, x ∈ l)
    (hinj : ∀ a ∈ l, ∀ b ∈ l, a.price = b.price → a = b) :
    ∀ a ∈ m, ∀ b ∈ m, a.price = b.price → a = b :=
  fun a ha b hb => hinj a (hsub a ha) b (hsub b hb)

/-- C2 (amended): for every policy and quality floor, `select` returns the same
offer for every permutation of the input list *provided no two offers in the
list share the same price*; with equal-price ties the Python `min`/`max`
return the first extremal offer in arrival order, so the result depends on
arrival order (see the counterexample). -/
theorem C2_select_perm_invariant (k : StrategyKind) (mq : Option CardQuality)
    {l l' : List Offer} (h : l.Perm l')
    (hinj : ∀ a ∈ l, ∀ b ∈ l, a.price = b.price → a = b) :
    k.select mq l = k.select mq l' := by
  have hqf : (filterByQuality mq l).Perm (filterByQuality mq l') := perm_filterByQuality h
  have hsubqf : ∀ x ∈ filterByQuality mq l, x ∈ l := fun x hx => mem_filterByQuality hx
  cases k with
  | cheapest =>
    have hA := hqf.filter (fun o => o.availability)
    have hsub : ∀ x ∈ (filterByQuality mq l).filter (fun o => o.availability), x ∈ l :=
      fun x hx => hsubqf x (List.mem_filter.1 hx).1
    simp only [StrategyKind.select]
    rw [perm_isEmpty h, perm_isEmpty hA, minByPrice_perm hA (inj_restrict hsub hinj)]
  | cheapestFoil =>
    have hA := hqf.filter (fun o => o.foil && o.availability)
    have hsub : ∀ x ∈ (filterByQuality mq l).filter (fun o => o.foil && o.availability), x ∈ l :=
      fun x hx => hsubqf x (List.mem_filter.1 hx).1
    simp only [StrategyKind.select]
    rw [perm_isEmpty h, perm_isEmpty hA, minByPrice_perm hA (inj_restrict hsub hinj)]
  | cheapestNonFoil =>
    have hA := hqf.filter (fun o => !o.foil && o.availability)
    have hsub : ∀ x ∈ (filterByQuality mq l).filter (fun o => !o.foil && o.availability), x ∈ l :=
      fun x hx => hsubqf x (List.mem_filter.1 hx).1
    simp only [StrategyKind.select]
    rw [perm_isEmpty h, perm_isEmpty hA, minByPrice_perm hA (inj_restrict hsub hinj)]
  | blingiest =>
    have hA := hqf.filter (fun o => o.foil && o.availability)
    have hsub : ∀ x ∈ (filterByQuality mq l).filter (fun o => o.foil && o.availability), x ∈ l :=
      fun x hx => hsubqf x (List.mem_filter.1 hx).1
    simp only [StrategyKind.select]
    rw [perm_isEmpty h, perm_isEmpty hA, maxByPrice_perm hA (inj_restrict hsub hinj)]
  | bestCondition =>
    have hA := hqf.filter (fun o =>
      o.availability &&
        NEAR_MINT_CONDITIONS.any (fun c => strContainsSub (lowerStr o.condition) (lowerStr c)))
    have hsub : ∀ x ∈ (filterByQuality mq l).filter (fun o =>
        o.availability &&
          NEAR_MINT_CONDITIONS.any (fun c => strContainsSub (lowerStr o.condition) (lowerStr c))),
        x ∈ l :=
      fun x hx => hsubqf x (List.mem_filter.1 hx).1
    simp only [StrategyKind.select]
    rw [perm_isEmpty h, perm_isEmpty hA, minByPrice_perm hA (inj_restrict hsub hinj)]
  | foilFirstCheapest =>
    have hA := hqf.filter (fun o => o.availability)
    have hsubA : ∀ x ∈ (filterByQuality mq l).filter (fun o => o.availability), x ∈ l :=
      fun x hx => hsubqf x (List.mem_filter.1 hx).1
    have hF := hA.filter (fun o => o.foil)
    have hsubF : ∀ x ∈ ((filterByQuality mq l).filter (fun o => o.availability)).filter
        (fun o => o.foil), x ∈ l :=
      fun x hx => hsubA x (List.mem_filter.1 hx).1
    have hN := hA.filter (fun o => !o.foil)
    have hsubN : ∀ x ∈ ((filterByQuality mq l).filter (fun o => o.availability)).filter
        (fun o => !o.foil), x ∈ l :=
      fun x hx => hsubA x (List.mem_filter.1 hx).1
    simp only [StrategyKind.select]
    rw [perm_isEmpty h, perm_isEmpty hA, perm_isEmpty hF, perm_isEmpty hN,
      minByPrice_perm hF (inj_restrict hsubF hinj),
      minByPrice_perm hN (inj_restrict hsubN hinj)]

/-- C2 counterexample: with two surviving offers sharing the identical minimum
price, `select` (here the `cheapest` policy) returns a different offer for the
two arrival orders of the same offer set, refuting order-invariance as
claimed. -/
theorem C2_counterexample :
    ([tieOfferA, tieOfferB].Perm [tieOfferB, tieOfferA]) ∧
    StrategyKind.cheapest.select none [tieOfferA, tieOfferB] = some tieOfferA ∧
    StrategyKind.cheapest.select none [tieOfferB, tieOfferA] = some tieOfferB ∧
    tieOfferA ≠ tieOfferB := by
  refine ⟨by decide, by decide, by decide, by decide⟩

theorem C2_select_perm_invariant_witness :
    StrategyKind.cheapest.select none [distinctOfferA, distinctOfferB] =
      StrategyKind.cheapest.select none [distinctOfferB, distinctOfferA] :=
  C2_select_perm_invariant .cheapest none (by decide) (by decide)

/-- C1 (code bug): the best-condition filter tests whether any synonym is a
*substring* of the condition text, and the one-letter synonym `"M"` is a
substring of `"Damaged"`; so an in-stock offer in `Damaged` condition — which
equals no Near-Mint-or-better synonym and parses to the lowest quality rank —
is kept and returned, where the claim (and the strategy's own docstring,
"selects the cheapest offer in Near Mint condition") requires it to be dropped
and `select` to return none. -/
theorem C1_best_condition_keeps_damaged :
    CardQuality.fromString "Damaged" = some CardQuality.DAMAGED ∧
    (∀ s ∈ NEAR_MINT_CONDITIONS, lowerStr s ≠ lowerStr "Damaged") ∧
    StrategyKind.bestCondition.select none [damagedOffer] = some damagedOffer := by
  refine ⟨by decide, by decide, by decide⟩

/-- C3: `meets_minimum_quality` is unconditionally true without a floor; with a
floor it is false exactly when the text fails to parse to one of the seven
quality ranks, and otherwise true exactly when the parsed rank is at least the
floor's rank. -/
theorem C3_meets_floor_spec (condition : String) (q : CardQuality) :
    meets_minimum_quality condition none = true ∧
    (CardQuality.fromString condition = none →
      meets_minimum_quality condition (some q) = false) ∧
    (∀ r : CardQuality, CardQuality.fromString condition = some r →
      (meets_minimum_quality condition (some q) = true ↔ q ≤ r)) := by
  refine ⟨rfl, ?_, ?_⟩
  · intro h
    simp [meets_minimum_quality, h]
  · intro r hr
    simp [meets_minimum_quality, hr]

theorem C3_meets_floor_spec_witness :
    meets_minimum_quality "scribbled on" (some CardQuality.PLAYED) = false ∧
    meets_minimum_quality "NM" (some CardQuality.PLAYED) = true :=
  ⟨(C3_meets_floor_spec "scribbled on" .PLAYED).2.1 (by decide),
   ((C3_meets_floor_spec "NM" .PLAYED).2.2 CardQuality.NEAR_MINT (by decide)).2 (by decide)⟩

/-- C8: `meets_minimum_quality` is monotone in the floor: a text meeting floor
`F` meets every floor `G ≤ F`. -/
theorem C8_meets_floor_monotone (condition : String) (F G : CardQuality)
    (hGF : G ≤ F) (hF : meets_minimum_quality condition (some F) = true) :
    meets_minimum_quality condition (some G) = true := by
  cases hq : CardQuality.fromString condition with
  | none => simp [meets_minimum_quality, hq] at hF
  | some r =>
    simp only [meets_minimum_quality, hq, decide_eq_true_eq] at hF ⊢
    have h1 : G.val ≤ F.val := hGF
    have h2 : F.val ≤ r.val := hF
    exact Nat.le_trans h1 h2

theorem C8_meets_floor_monotone_witness :
    meets_minimum_quality "LP" (some CardQuality.DAMAGED) = true :=
  C8_meets_floor_monotone "LP" CardQuality.PLAYED CardQuality.DAMAGED (by decide) (by decide)

/-- C9: `normalize_condition` maps the empty condition string to `"NM"`, which
then passes every quality floor at or below Near Mint, whereas the raw empty
string would have been conservatively rejected by `meets_minimum_quality`. -/
theorem C9_empty_condition_defaults_nm (q : CardQuality) (h : q ≤ CardQuality.NEAR_MINT) :
    normalize_condition "" = "NM" ∧
    meets_minimum_quality (normalize_condition "") (some q) = true ∧
    meets_minimum_quality "" (some q) = false := by
  have h0 : normalize_condition "" = "NM" := by decide
  refine ⟨h0, ?_, ?_⟩
  · rw [h0]
    have h1 : CardQuality.fromString "NM" = some CardQuality.NEAR_MINT := by decide
    simp [meets_minimum_quality, h1, h]
  · have h2 : CardQuality.fromString "" = none := by decide
    simp [meets_minimum_quality, h2]

theorem C9_empty_condition_defaults_nm_witness :
    normalize_condition "" = "NM" ∧
    meets_minimum_quality (normalize_condition "") (some CardQuality.LIGHTLY_PLAYED) = true ∧
    meets_minimum_quality "" (some CardQuality.LIGHTLY_PLAYED) = false :=
  C9_empty_condition_defaults_nm CardQuality.LIGHTLY_PLAYED (by decide)

/-- C5: every policy, with or without a quality floor, returns none on the
empty offer list and on any list whose offers are all out of stock. -/
theorem C5_select_none_empty_or_out_of_stock (k : StrategyKind) (mq : Option CardQuality) :
    k.select mq [] = none ∧
    ∀ l : List Offer, (∀ o ∈ l, o.availability = false) → k.select mq l = none := by
  constructor
  · cases k <;> rfl
  · intro l hl
    have hqf : ∀ o ∈ filterByQuality mq l, o.availability = false :=
      fun o ho => hl o (mem_filterByQuality ho)
    cases k with
    | cheapest =>
      have h1 : (filterByQuality mq l).filter (fun o => o.availability) = [] :=
        List.filter_eq_nil_iff.2 (fun o ho => by simp [hqf o ho])
      simp [StrategyKind.select, h1]
    | cheapestFoil =>
      have h1 : (filterByQuality mq l).filter (fun o => o.foil && o.availability) = [] :=
        List.filter_eq_nil_iff.2 (fun o ho => by simp [hqf o ho])
      simp [StrategyKind.select, h1]
    | cheapestNonFoil =>
      have h1 : (filterByQuality mq l).filter (fun o => !o.foil && o.availability) = [] :=
        List.filter_eq_nil_iff.2 (fun o ho => by simp [hqf o ho])
      simp [StrategyKind.select, h1]
    | blingiest =>
      have h1 : (filterByQuality mq l).filter (fun o => o.foil && o.availability) = [] :=
        List.filter_eq_nil_iff.2 (fun o ho => by simp [hqf o ho])
      simp [StrategyKind.select, h1]
    | bestCondition =>
      have h1 : (filterByQuality mq l).filter (fun o =>
          o.availability &&
            NEAR_MINT_CONDITIONS.any
              (fun c => strContainsSub (lowerStr o.condition) (lowerStr c))) = [] :=
        List.filter_eq_nil_iff.2 (fun o ho => by simp [hqf o ho])
      simp [StrategyKind.select, h1]
    | foilFirstCheapest =>
      have h1 : (filterByQuality mq l).filter (fun o => o.availability) = [] :=
        List.filter_eq_nil_iff.2 (fun o ho => by simp [hqf o ho])
      simp [StrategyKind.select, h1]

theorem C5_select_none_empty_or_out_of_stock_witness :
    StrategyKind.bestCondition.select none [] = none ∧
    StrategyKind.bestCondition.select none [outOfStockOffer] = none :=
  ⟨(C5_select_none_empty_or_out_of_stock .bestCondition none).1,
   (C5_select_none_empty_or_out_of_stock .bestCondition none).2 [outOfStockOffer] (by decide)⟩

/-- C6: an unrecognized policy name makes `get_strategy` raise a
`ValueError` surfaced to `select_best_offers`, which resolves the `cheapest`
strategy (with the same quality floor) instead and logs the error plus a
fallback notice — never a silent default. -/
theorem C6_unknown_strategy_fallback (name : String) (mq : Option CardQuality)
    (h : AVAILABLE_STRATEGIES.find? (fun kv => kv.1 == lowerStr name) = none) :
    (∃ e, getStrategy name mq = Except.error e) ∧
    (selectBestOffersStrategy name mq).1 = (StrategyKind.cheapest, mq) ∧
    "Falling back to cheapest strategy" ∈ (selectBestOffersStrategy name mq).2 := by
  have hg : getStrategy name mq =
      Except.error
        ("Unknown strategy: " ++ name ++
         ". Available strategies: cheapest, cheapest-foil, cheapest-nonfoil, blingiest, best-condition, foil-first-cheapest") := by
    unfold getStrategy
    rw [h]
  have hch : getStrategy "cheapest" mq = Except.ok (StrategyKind.cheapest, mq) := rfl
  refine ⟨⟨_, hg⟩, ?_, ?_⟩ <;> simp [selectBestOffersStrategy, hg, hch]

theorem C6_unknown_strategy_fallback_witness :
    (∃ e, getStrategy "bogus" none = Except.error e) ∧
    (selectBestOffersStrategy "bogus" none).1 = (StrategyKind.cheapest, none) ∧
    "Falling back to cheapest strategy" ∈ (selectBestOffersStrategy "bogus" none).2 :=
  C6_unknown_strategy_fallback "bogus" none (by decide)

/-- After filtering out every entry keyed by `p`, a lookup of `p` misses. -/
theorem find?_filter_not_key {α : Type} (st : CacheState α) (p : String) :
    (st.filter (fun kv => !(kv.1 == p))).find? (fun kv => kv.1 == p) = none := by
  rw [List.find?_eq_none]
  intro x hx
  have hx2 := (List.mem_filter.1 hx).2
  simp only [Bool.not_eq_true', beq_eq_false_iff_ne, ne_eq] at hx2
  simp [hx2]

/-- C4: a payload saved for `(store, card)` and loaded at any time within its
ttl is returned unchanged; a load performed when `now - createdAt > ttl`
returns absent, deletes the entry (the file name no longer resolves), and any
subsequent load of that key misses. -/
theorem C4_cache_ttl {α : Type} (store_name card_name : String) (d : α) (ttl : ℤ)
    (tw tr : ℚ) (st : CacheState α) :
    ((tr - tw ≤ (ttl : ℚ)) →
      (loadFromCache store_name card_name tr
        (saveToCache store_name card_name d ttl tw st)).1 = some d) ∧
    (((ttl : ℚ) < tr - tw) →
      (loadFromCache store_name card_name tr
          (saveToCache store_name card_name d ttl tw st)).1 = none ∧
      ((loadFromCache store_name card_name tr
          (saveToCache store_name card_name d ttl tw st)).2).find?
          (fun kv => kv.1 == getCachePath store_name card_name) = none ∧
      (∀ t' : ℚ,
        (loadFromCache store_name card_name t'
          (loadFromCache store_name card_name tr
            (saveToCache store_name card_name d ttl tw st)).2).1 = none)) := by
  have hfind : (saveToCache store_name card_name d ttl tw st).find?
      (fun kv => kv.1 == getCachePath store_name card_name) =
      some (getCachePath store_name card_name, ⟨tw, ttl, d⟩) := by
    unfold saveToCache
    exact List.find?_cons_of_pos _ (by simp)
  constructor
  · intro h
    simp only [loadFromCache, hfind]
    rw [if_neg (not_lt.2 h)]
  · intro h
    have hpost : (loadFromCache store_name card_name tr
        (saveToCache store_name card_name d ttl tw st)).2 =
        (saveToCache store_name card_name d ttl tw st).filter
          (fun kv => !(kv.1 == getCachePath store_name card_name)) := by
      simp only [loadFromCache, hfind]
      rw [if_pos h]
    refine ⟨?_, ?_, ?_⟩
    · simp only [loadFromCache, hfind]
      rw [if_pos h]
    · rw [hpost]
      exact find?_filter_not_key _ _
    · intro t'
      rw [hpost]
      simp only [loadFromCache, find?_filter_not_key]

theorem C4_cache_ttl_witness :
    (loadFromCache "StoreX" "bolt" 1
      (saveToCache "StoreX" "bolt" (42 : ℕ) 1 0 ([] : CacheState ℕ))).1 = some 42 ∧
    (loadFromCache "StoreX" "bolt" 2
      (saveToCache "StoreX" "bolt" (42 : ℕ) 1 0 ([] : CacheState ℕ))).1 = none ∧
    (loadFromCache "StoreX" "bolt" 3
      (loadFromCache "StoreX" "bolt" 2
        (saveToCache "StoreX" "bolt" (42 : ℕ) 1 0 ([] : CacheState ℕ))).2).1 = none :=
  ⟨(C4_cache_ttl "StoreX" "bolt" 42 1 0 1 []).1 (by norm_num),
   ((C4_cache_ttl "StoreX" "bolt" 42 1 0 2 []).2 (by norm_num)).1,
   (((C4_cache_ttl "StoreX" "bolt" 42 1 0 2 []).2 (by norm_num)).2.2) 3⟩

/-- C10: the cache key mapping is not injective: the distinct pairs
`("Store A", "x")` and `("Store", "A x")` sanitize to the same file name, and a
payload saved for the first pair is returned by a later in-ttl read for the
second pair. -/
theorem C10_cache_key_collision :
    getCachePath "Store A" "x" = getCachePath "Store" "A x" ∧
    ("Store A", "x") ≠ (("Store", "A x") : String × String) ∧
    (loadFromCache "Store" "A x" 1
      (saveToCache "Store A" "x" (42 : ℕ) 24 0 ([] : CacheState ℕ))).1 = some 42 := by
  have hcol : getCachePath "Store A" "x" = getCachePath "Store" "A x" := by decide
  refine ⟨hcol, by decide, ?_⟩
  have hfind : (saveToCache "Store A" "x" (42 : ℕ) 24 0 ([] : CacheState ℕ)).find?
      (fun kv => kv.1 == getCachePath "Store" "A x") =
      some (getCachePath "Store A" "x", ⟨0, 24, 42⟩) := by
    unfold saveToCache
    exact List.find?_cons_of_pos _ (by simp [hcol])
  simp only [loadFromCache, hfind]
  rw [if_neg (by norm_num)]

theorem sanitizeChars_append (a b : List Char) :
    sanitizeChars (a ++ b) = sanitizeChars a ++ sanitizeChars b := by
  simp [sanitizeChars]

/-- A string of characters untouched by the sanitization (alphanumerics,
underscore, hyphen) passes through `sanitizeChars` unchanged. -/
theorem sanitizeChars_of_clean (l : List Char)
    (h : ∀ c ∈ l, (c.isAlphanum || c = '_' || c = '-') = true) :
    sanitizeChars l = l := by
  induction l with
  | nil => rfl
  | cons c cs ih =>
    have hc := h c (List.mem_cons_self _ _)
    have hcs := ih (fun x hx => h x (List.mem_cons_of_mem _ hx))
    have hne1 : c ≠ ' ' := by
      intro he
      rw [he] at hc
      exact absurd hc (by decide)
    have hne2 : c ≠ '/' := by
      intro he
      rw [he] at hc
      exact absurd hc (by decide)
    simp only [sanitizeChars] at hcs
    simp [sanitizeChars, hne1, hne2, hc, hcs]

/-- For a sanitization-clean store name, every cache file it saves has
`store_name + "_"` as a file-name prefix. -/
theorem getCachePath_hasPrefix (s card_name : String)
    (hclean : ∀ c ∈ s.data, (c.isAlphanum || c = '_' || c = '-') = true) :
    hasPrefixB (getCachePath s card_name) (s ++ "_") = true := by
  unfold hasPrefixB getCachePath
  rw [List.isPrefixOf_iff_prefix]
  have hdata : (s ++ "_").data = s.data ++ ['_'] := String.data_append s "_"
  have hu : sanitizeChars ['_'] = ['_'] := by decide
  have h1 : sanitizeChars (s.data ++ '_' :: card_name.data)
      = s.data ++ '_' :: sanitizeChars card_name.data := by
    have hs : s.data ++ '_' :: card_name.data = (s.data ++ ['_']) ++ card_name.data := by simp
    rw [hs, sanitizeChars_append, sanitizeChars_append,
      sanitizeChars_of_clean s.data hclean, hu]
    simp
  show (s ++ "_").data <+: sanitizeChars (s.data ++ '_' :: card_name.data) ++ ".json".data
  rw [hdata, h1]
  refine ⟨sanitizeChars card_name.data ++ ".json".data, ?_⟩
  simp

/-- C7 (amended): `invalidate(none)` removes every (`.json`-named) entry and
returns the count; `invalidate(source)` removes exactly the entries whose file
name starts with `source + "_"`, returning their count — which covers every
entry saved for that source whenever the source name consists only of
characters preserved by the file-name sanitization (alphanumerics, underscore,
hyphen); for other source names (e.g. containing a space) saved entries
escape removal (see the counterexample). -/
theorem C7_clear_cache_spec {α : Type} (st : CacheState α) (s : String)
    (hjson : ∀ kv ∈ st, hasSuffixB kv.1 ".json" = true) :
    clearCache (none : Option String) st = (st.length, []) ∧
    (clearCache (some s) st).1 =
      (st.filter (fun kv => hasPrefixB kv.1 (s ++ "_"))).length ∧
    (clearCache (some s) st).2 = st.filter (fun kv => !(hasPrefixB kv.1 (s ++ "_"))) ∧
    ((∀ c ∈ s.data, (c.isAlphanum || c = '_' || c = '-') = true) →
      ∀ card_name : String, hasPrefixB (getCachePath s card_name) (s ++ "_") = true) := by
  refine ⟨?_, ?_, ?_, ?_⟩
  · simp only [clearCache, Bool.and_true]
    rw [List.filter_eq_self.2 hjson,
      List.filter_eq_nil_iff.2 (fun kv hkv => by simp [hjson kv hkv])]
  · simp only [clearCache]
    congr 1
    apply List.filter_congr
    intro kv hkv
    simp [hjson kv hkv]
  · simp only [clearCache]
    apply List.filter_congr
    intro kv hkv
    simp [hjson kv hkv]
  · intro hclean card_name
    exact getCachePath_hasPrefix s card_name hclean

theorem C7_clear_cache_spec_witness :
    clearCache (none : Option String)
        (saveToCache "StoreX" "bolt" (42 : ℕ) 24 0 ([] : CacheState ℕ)) =
      ((saveToCache "StoreX" "bolt" (42 : ℕ) 24 0 ([] : CacheState ℕ)).length, []) ∧
    hasPrefixB (getCachePath "StoreX" "bolt") ("StoreX" ++ "_") = true :=
  ⟨(C7_clear_cache_spec (saveToCache "StoreX" "bolt" (42 : ℕ) 24 0 ([] : CacheState ℕ))
      "StoreX" (by decide)).1,
   (C7_clear_cache_spec (saveToCache "StoreX" "bolt" (42 : ℕ) 24 0 ([] : CacheState ℕ))
      "StoreX" (by decide)).2.2.2 (by decide) "bolt"⟩

/-- C7 counterexample: the store name `"My Store"` contains a space, so its
saved cache file is named `My_Store_bolt.json`, which does not start with
`"My Store_"`; `clear_cache("My Store")` therefore removes nothing, returns 0,
and the supposedly invalidated entry is still served by a later read —
refuting the claim that `invalidate(source)` removes all entries of that
source. -/
theorem C7_counterexample :
    (saveToCache "My Store" "bolt" (42 : ℕ) 24 0 ([] : CacheState ℕ)) ≠ [] ∧
    clearCache (some "My Store")
        (saveToCache "My Store" "bolt" (42 : ℕ) 24 0 ([] : CacheState ℕ)) =
      (0, saveToCache "My Store" "bolt" (42 : ℕ) 24 0 ([] : CacheState ℕ)) ∧
    (loadFromCache "My Store" "bolt" 1
      ((clearCache (some "My Store")
        (saveToCache "My Store" "bolt" (42 : ℕ) 24 0 ([] : CacheState ℕ))).2)).1 = some 42 := by
  refine ⟨by decide, by decide, ?_⟩
  have hclear : (clearCache (some "My Store")
      (saveToCache "My Store" "bolt" (42 : ℕ) 24 0 ([] : CacheState ℕ))).2 =
      saveToCache "My Store" "bolt" (42 : ℕ) 24 0 ([] : CacheState ℕ) := by decide
  rw [hclear]
  have hfind : (saveToCache "My Store" "bolt" (42 : ℕ) 24 0 ([] : CacheState ℕ)).find?
      (fun kv => kv.1 == getCachePath "My Store" "bolt") =
      some (getCachePath "My Store" "bolt", ⟨0, 24, 42⟩) := by
    unfold saveToCache
    exact List.find?_cons_of_pos _ (by simp)
  simp only [loadFromCache, hfind]
  rw [if_neg (by norm_num)]
